import Mathlib

/-!
Verification of the Hexagon backend's live-connection subsystem.

The development shallowly embeds the room/participant registry and the
Socket.IO event handlers of `app/routers/webrtc.py`, the media streaming
connection manager of `app/routers/media.py`, and the per-session insight
store of `app/routers/llm_processor.py`.

Python dictionaries preserve insertion order, so they are embedded as
association lists: assignment `d[k] = v` replaces the value in place when
the key is present and appends at the end otherwise; `del d[k]` removes
the entry; iteration walks the list front to back.  Socket ids (Python
`sid` strings, websocket objects) are embedded as `Nat`, application
strings as `String`.  Wall-clock timestamps are passed in as parameters.
-/

namespace Hexagon

/-- Lookup in an insertion-ordered association list (Python `d[k]` /
`d.get(k)` read side). -/
def alistLookup {κ β : Type} [DecidableEq κ] : List (κ × β) → κ → Option β
  | [], _ => none
  | (k, v) :: rest, key => if k = key then some v else alistLookup rest key

/-- Python `k in d`. -/
def containsKey {κ β : Type} [DecidableEq κ] (l : List (κ × β)) (key : κ) : Bool :=
  (alistLookup l key).isSome

/-- Python `d[k] = v`: replace in place when present, append otherwise. -/
def dictInsert {κ β : Type} [DecidableEq κ] : List (κ × β) → κ → β → List (κ × β)
  | [], key, v => [(key, v)]
  | (k, w) :: rest, key, v =>
      if k = key then (key, v) :: rest else (k, w) :: dictInsert rest key v

/-- Python `del d[k]` (no-op when the key is absent, matching guarded use
`if k in d: del d[k]` at every call site embedded below). -/
def alistErase {κ β : Type} [DecidableEq κ] : List (κ × β) → κ → List (κ × β)
  | [], _ => []
  | (k, w) :: rest, key => if k = key then rest else (k, w) :: alistErase rest key

/-- Python `d.get(k, default)`. -/
def pget {κ β : Type} [DecidableEq κ] (l : List (κ × β)) (key : κ) (d : β) : β :=
  (alistLookup l key).getD d

/-- Python `lst.remove(x)`: delete the first occurrence. -/
def listRemove {α : Type} [DecidableEq α] : List α → α → List α
  | [], _ => []
  | a :: rest, x => if a = x then rest else a :: listRemove rest x

/-! ## Signaling state (`app/routers/webrtc.py`)

Module-level globals `rooms` (room id → list of member sids, webrtc.py:11)
and `participants` (sid → logical user id, webrtc.py:12), plus the
Socket.IO server's own room membership (`sio.enter_room` /
`sio.leave_room`), which determines delivery of `sio.emit(..., room=r)`.
-/

/-- Destination of a `sio.emit` call: a named room or a single socket's
personal room (`room=sid`). -/
inductive EmitTarget : Type
  | toRoom (room_id : String)
  | toSid (sid : Nat)
deriving DecidableEq, Repr

/-- Emitted event payloads, one constructor per payload shape occurring in
`webrtc.py`. -/
inductive Payload : Type
  | str (s : String)
  | errorMsg (message : String)
  | signal (field : String) (payload : String) (from_user_id : String)
  | chat (user_id : String) (message : String) (timestamp : String)
  | roomDeleted (message : String)
deriving DecidableEq, Repr

/-- One `sio.emit(event, payload, room=..., skip_sid=...)` call. -/
structure Emit : Type where
  event : String
  payload : Payload
  target : EmitTarget
  skip_sid : Option Nat
deriving DecidableEq, Repr

/-- The mutable module-level state of `webrtc.py`. -/
structure SigState : Type where
  /-- webrtc.py:11 `rooms = {}` — room id → ordered member sid list. -/
  rooms : List (String × List Nat)
  /-- webrtc.py:12 `participants = {}` — sid → logical user id. -/
  participants : List (Nat × String)
  /-- Socket.IO server-side room membership, mutated by
  `sio.enter_room` / `sio.leave_room` and cleared for a sid on transport
  disconnect (python-socketio removes a disconnected client from all its
  rooms). -/
  sioRooms : List (String × List Nat)
deriving DecidableEq, Repr

def SigState.empty : SigState := ⟨[], [], []⟩

/-- Members of a Socket.IO room (empty when absent). -/
def sioMembers (st : SigState) (room_id : String) : List Nat :=
  (alistLookup st.sioRooms room_id).getD []

/-- `sio.enter_room(sid, room_id)`: idempotent insertion. -/
def sioEnterRoom (sid : Nat) (room_id : String) (rs : List (String × List Nat)) :
    List (String × List Nat) :=
  let ms := (alistLookup rs room_id).getD []
  if sid ∈ ms then rs else dictInsert rs room_id (ms ++ [sid])

/-- `sio.leave_room(sid, room_id)`. -/
def sioLeaveRoom (sid : Nat) (room_id : String) (rs : List (String × List Nat)) :
    List (String × List Nat) :=
  match alistLookup rs room_id with
  | none => rs
  | some ms => dictInsert rs room_id (listRemove ms sid)

/-- Transport-level cleanup: the disconnected sid is dropped from every
Socket.IO room. -/
def sioDropEverywhere (sid : Nat) (rs : List (String × List Nat)) :
    List (String × List Nat) :=
  rs.map (fun p => (p.1, listRemove p.2 sid))

/-- `join_room` handler (webrtc.py:39-67).  Stores the participant,
lazily creates the room, notifies existing members (`skip_sid=sid`),
appends the sid, and enters the Socket.IO room. -/
def join_room (sid : Nat) (room_id user_id : String) (st : SigState) :
    SigState × List Emit :=
  let participants1 := dictInsert st.participants sid user_id
  let rooms0 :=
    if containsKey st.rooms room_id then st.rooms
    else st.rooms ++ [(room_id, [])]
  let current := (alistLookup rooms0 room_id).getD []
  let emits : List Emit :=
    if current ≠ [] then
      [⟨"user-joined", .str user_id, .toRoom room_id, some sid⟩]
    else []
  let rooms1 := dictInsert rooms0 room_id (current ++ [sid])
  let sio1 := sioEnterRoom sid room_id st.sioRooms
  (⟨rooms1, participants1, sio1⟩, emits)

/-- `leave_room` handler (webrtc.py:69-97).  Removes the sid from the
room if present, notifies the others, deletes the room when it became
empty, leaves the Socket.IO room, and deletes the participant entry. -/
def leave_room (sid : Nat) (room_id : String) (st : SigState) :
    SigState × List Emit :=
  let user_id := pget st.participants sid "Unknown"
  let (rooms1, emits) :=
    match alistLookup st.rooms room_id with
    | none => (st.rooms, ([] : List Emit))
    | some ms =>
        if sid ∈ ms then
          let ms' := listRemove ms sid
          let emits : List Emit :=
            [⟨"user-left", .str user_id, .toRoom room_id, some sid⟩]
          if ms' = [] then (alistErase st.rooms room_id, emits)
          else (dictInsert st.rooms room_id ms', emits)
        else (st.rooms, [])
  let sio1 := sioLeaveRoom sid room_id st.sioRooms
  let participants1 := alistErase st.participants sid
  (⟨rooms1, participants1, sio1⟩, emits)

/-- First room (in dict order) whose member list contains the sid —
the room found by the `for room_id, room_participants in rooms.items()`
loop of the disconnect handler. -/
def findRoomOf (sid : Nat) : List (String × List Nat) → Option String
  | [] => none
  | (k, ms) :: rest => if sid ∈ ms then some k else findRoomOf sid rest

/-- `disconnect` handler (webrtc.py:25-37).  Removes the sid from the
first room containing it, notifies the others, and deletes the
participant entry; it `break`s immediately after and — unlike
`leave_room` — never deletes the room when it became empty. -/
def disconnect (sid : Nat) (st : SigState) : SigState × List Emit :=
  let sio1 := sioDropEverywhere sid st.sioRooms
  match findRoomOf sid st.rooms with
  | none => (⟨st.rooms, st.participants, sio1⟩, [])
  | some room_id =>
      let ms := (alistLookup st.rooms room_id).getD []
      let rooms1 := dictInsert st.rooms room_id (listRemove ms sid)
      let user_id := pget st.participants sid "Unknown"
      let participants1 := alistErase st.participants sid
      (⟨rooms1, participants1, sio1⟩,
        [⟨"user-left", .str user_id, .toRoom room_id, some sid⟩])

/-- The membership-changing operations a client can trigger. -/
inductive SigOp : Type
  | join (sid : Nat) (room_id user_id : String)
  | leave (sid : Nat) (room_id : String)
  | disc (sid : Nat)
deriving DecidableEq, Repr

def SigOp.isDisc : SigOp → Bool
  | .disc _ => true
  | _ => false

def applySigOp (st : SigState) (op : SigOp) : SigState :=
  match op with
  | .join sid r u => (join_room sid r u st).1
  | .leave sid r => (leave_room sid r st).1
  | .disc sid => (disconnect sid st).1

def runSigOps (ops : List SigOp) : SigState :=
  ops.foldl applySigOp SigState.empty

/-- The registry invariant claimed by the spec: every room present in
`rooms` has a non-empty member list (so a room id is present iff its
member set is non-empty). -/
def roomsNonempty (st : SigState) : Prop :=
  ∀ p ∈ st.rooms, p.2 ≠ []

instance (st : SigState) : Decidable (roomsNonempty st) := by
  unfold roomsNonempty; infer_instance

/-! ## Signaling router (`offer` / `answer` / `ice_candidate` handlers,
webrtc.py:99-172). -/

inductive SignalKind : Type
  | offer
  | answer
  | iceCandidate
deriving DecidableEq, Repr

/-- Outbound event name for each kind (webrtc.py:115,140,165). -/
def eventName : SignalKind → String
  | .offer => "offer"
  | .answer => "answer"
  | .iceCandidate => "ice-candidate"

/-- Key the relayed payload is stored under in the outbound dict
(webrtc.py:115,140,165). -/
def fieldName : SignalKind → String
  | .offer => "offer"
  | .answer => "answer"
  | .iceCandidate => "candidate"

/-- The target-resolution loop shared by the three handlers
(webrtc.py:108-112): first entry of the module-wide `participants` dict
whose value equals `target_user_id`, walked in insertion (= join)
order.  Note it scans every registered connection, not just the
sender's room. -/
def findTarget : List (Nat × String) → String → Option Nat
  | [], _ => none
  | (socket_id, user_id) :: rest, target =>
      if user_id = target then some socket_id else findTarget rest target

/-- Shared body of the `offer`, `answer` and `ice_candidate` handlers
(webrtc.py:99-172): resolve the target, forward to its personal room, or
send an error envelope back to the sender's personal room.  The handlers
never mutate `rooms`/`participants`, so only the emit list is returned. -/
def signalRoute (k : SignalKind) (sid : Nat) (payload target_user_id : String)
    (st : SigState) : List Emit :=
  let sender_id := pget st.participants sid "Unknown"
  match findTarget st.participants target_user_id with
  | some target_sid =>
      [⟨eventName k, .signal (fieldName k) payload sender_id, .toSid target_sid, none⟩]
  | none =>
      [⟨"error", .errorMsg "Target user not found", .toSid sid, none⟩]

/-- `message` handler (webrtc.py:174-192): broadcast the chat envelope
`{user_id, message, timestamp}` to the whole Socket.IO room with no
`skip_sid`.  `timestamp` (`str(datetime.utcnow())`) is passed in.  The
handler does not mutate state. -/
def messageHandler (sid : Nat) (msg room_id timestamp : String) (st : SigState) :
    List Emit :=
  let user_id := pget st.participants sid "Unknown"
  [⟨"message", .chat user_id msg timestamp, .toRoom room_id, none⟩]

/-- Connections that actually receive one `sio.emit` call, given the
Socket.IO room membership at emit time: every member of the named room
except the `skip_sid`, or just the one socket when the emit is addressed
to a personal room. -/
def emitRecipients (sioRooms : List (String × List Nat)) (e : Emit) : List Nat :=
  match e.target with
  | .toSid s =>
      match e.skip_sid with
      | some k => if s = k then [] else [s]
      | none => [s]
  | .toRoom r =>
      let ms := (alistLookup sioRooms r).getD []
      match e.skip_sid with
      | some k => ms.filter (fun c => c ≠ k)
      | none => ms

/-! ## REST `DELETE /rooms/{room_id}` (webrtc.py:221-239). -/

/-- Result of the `delete_room` endpoint.  The handler first checks
`room_id not in rooms` and raises HTTP 404 (`notFound`).  Otherwise line
228 evaluates the name `socket_manager`, which is defined nowhere in the
module (the Socket.IO server is bound to `sio`; `socket_manager` is
neither defined nor imported anywhere in the repository), so Python
raises `NameError` before any notification or mutation happens
(`nameError`).  The sources' intended success path is therefore
unreachable. -/
inductive DeleteRoomResult : Type
  | notFound
  | nameError
deriving DecidableEq, Repr

/-- `delete_room` endpoint (webrtc.py:221-239), embedded faithfully: 404
for an absent room, otherwise the `NameError` raised by the undefined
`socket_manager` at webrtc.py:228.  In both outcomes the state is
unchanged. -/
def delete_room (room_id : String) (st : SigState) : DeleteRoomResult :=
  if containsKey st.rooms room_id then .nameError else .notFound

/-! ## Media streaming connection manager (`app/routers/media.py`)

`ConnectionManager.media_sessions` maps a session id to a dict holding a
`"connections"` list (the only field the embedded operations read or
write; `"recordings"`, `"created_at"`, `"user_id"`, `"stream_type"` are
written once on creation and never consulted by the broadcast path).
Websockets are embedded as `Nat` ids; whether a given websocket's
`send_text` raises during one broadcast call is supplied as the
predicate `fails`. -/

structure MediaState : Type where
  /-- media.py:24 — session id → connection list. -/
  media_sessions : List (String × List Nat)
deriving DecidableEq, Repr

/-- Removing a present element shortens a list by exactly one. -/
theorem length_listRemove_add_one {α : Type} [DecidableEq α] {l : List α} {x : α}
    (hx : x ∈ l) : (listRemove l x).length + 1 = l.length := by
  induction l with
  | nil => cases hx
  | cons a rest ih =>
      by_cases hax : a = x
      · simp [listRemove, hax]
      · have hmem : x ∈ rest := by
          rcases List.mem_cons.mp hx with h | h
          · exact absurd h.symm hax
          · exact h
        simp [listRemove, hax, ih hmem]

/-- The `for connection in self.media_sessions[session_id]["connections"]`
loop of `broadcast_to_session` (media.py:49-54) under CPython `for`
semantics: the loop keeps an index into the live list, fetching
`conns[i]` while the body may shrink the list.  A failing send runs
`list.remove(connection)` on the list being walked, so the element that
shifts into slot `i` is skipped when the index advances.  Returns the
final list and the connections whose send succeeded, in send order. -/
def pyForBroadcast (fails : Nat → Bool) (conns : List Nat) (i : Nat) :
    List Nat × List Nat :=
  if h : i < conns.length then
    let c := conns.get ⟨i, h⟩
    if fails c then
      pyForBroadcast fails (listRemove conns c) (i + 1)
    else
      let r := pyForBroadcast fails conns (i + 1)
      (r.1, c :: r.2)
  else
    (conns, [])
termination_by conns.length - i
decreasing_by
  · have hc : conns.get ⟨i, h⟩ ∈ conns := List.get_mem conns i h
    have := length_listRemove_add_one hc
    omega
  · omega

/-- `ConnectionManager.broadcast_to_session` (media.py:47-54): walk the
session's connection list sending `message` to each, removing a
connection from the live list the moment its send fails.  Returns the
updated state together with the list of connections that received the
message.  Absent session: no-op. -/
def broadcast_to_session (fails : Nat → Bool) (session_id : String)
    (st : MediaState) : MediaState × List Nat :=
  match alistLookup st.media_sessions session_id with
  | none => (st, [])
  | some conns =>
      let r := pyForBroadcast fails conns 0
      (⟨dictInsert st.media_sessions session_id r.1⟩, r.2)

/-! ## Media websocket dispatch (`websocket_endpoint`, media.py:224-311). -/

/-- One decoded inbound JSON object; `none` marks an absent key
(`message["k"]` raises `KeyError`, `message.get("k", d)` defaults). -/
structure WireMsg : Type where
  type : Option String
  data : Option String
  timestamp : Option String
  user_id : Option String
  save_frame : Bool
deriving DecidableEq, Repr

/-- An uncaught Python exception escaping the receive loop.  The loop's
only handler is `except WebSocketDisconnect` (media.py:310), so any
other exception propagates, terminating the coroutine: the framework
closes the websocket and `manager.disconnect` is never called. -/
inductive PyError : Type
  | keyError (field : String)
deriving DecidableEq, Repr

/-- The outbound frame rebroadcast to the session (media.py:253-258,
278-283, 303-308): `{type, data, timestamp, user_id}`. -/
structure OutFrame : Type where
  type : String
  data : String
  timestamp : String
  user_id : Option String
deriving DecidableEq, Repr

/-- One iteration of the `websocket_endpoint` receive loop
(media.py:230-308) on an already-JSON-decoded message.  `now` stands for
`datetime.now().isoformat()`.  Recognized types rebroadcast the frame to
the session; an unknown `type` value matches no `if`/`elif` branch and
is silently dropped (no reply, loop continues); a missing `"type"` or
`"data"` key raises `KeyError`, which no handler catches.  File-saving
side effects are outside the embedded state. -/
def handleStreamMessage (fails : Nat → Bool) (now session_id : String)
    (msg : WireMsg) (st : MediaState) :
    Except PyError (MediaState × List (OutFrame × List Nat)) :=
  match msg.type with
  | none => .error (.keyError "type")
  | some t =>
      if t = "video_frame" ∨ t = "audio_chunk" ∨ t = "screen_share" then
        match msg.data with
        | none => .error (.keyError "data")
        | some d =>
            let frame : OutFrame := ⟨t, d, msg.timestamp.getD now, msg.user_id⟩
            let r := broadcast_to_session fails session_id st
            .ok (r.1, [(frame, r.2)])
      else
        .ok (st, [])

/-! ## Session insight store (`app/routers/llm_processor.py`)

`LLMConnectionManager.llm_sessions` maps a session id to per-kind
analysis lists (llm_processor.py:31-40).  Analysis records are opaque
here and embedded as `Nat`. -/

inductive AKind : Type
  | video
  | audio
  | screen
deriving DecidableEq, Repr

structure LLMSession : Type where
  /-- llm_processor.py:33 — connected websockets (as `Nat` ids). -/
  connections : List Nat
  /-- llm_processor.py:37 `"video_analysis": []`. -/
  video_analysis : List Nat
  /-- llm_processor.py:38 `"audio_analysis": []`. -/
  audio_analysis : List Nat
  /-- llm_processor.py:39 `"screen_analysis": []`. -/
  screen_analysis : List Nat
deriving DecidableEq, Repr

structure LLMState : Type where
  /-- llm_processor.py:24 — session id → session record. -/
  llm_sessions : List (String × LLMSession)
deriving DecidableEq, Repr

def LLMState.empty : LLMState := ⟨[]⟩

/-- The per-kind analysis list of a session. -/
def kindList (k : AKind) (s : LLMSession) : List Nat :=
  match k with
  | .video => s.video_analysis
  | .audio => s.audio_analysis
  | .screen => s.screen_analysis

/-- Replace the per-kind analysis list of a session. -/
def setKindList (k : AKind) (l : List Nat) (s : LLMSession) : LLMSession :=
  match k with
  | .video => { s with video_analysis := l }
  | .audio => { s with audio_analysis := l }
  | .screen => { s with screen_analysis := l }

/-- `LLMConnectionManager.connect` (llm_processor.py:27-42): lazily
create the session record with empty per-kind lists, then append the
websocket to its connection list.  Re-connecting never resets the
accumulated analyses. -/
def connectLLM (ws : Nat) (session_id : String) (st : LLMState) : LLMState :=
  let sessions0 :=
    if containsKey st.llm_sessions session_id then st.llm_sessions
    else st.llm_sessions ++ [(session_id, ⟨[], [], [], []⟩)]
  let sess := (alistLookup sessions0 session_id).getD ⟨[], [], [], []⟩
  ⟨dictInsert sessions0 session_id { sess with connections := sess.connections ++ [ws] }⟩

/-- The `if session_id in llm_manager.llm_sessions: ...append(analysis)`
pattern storing one analysis record (llm_processor.py:99-100, 114-115,
142-143): append to the per-kind list when the session exists, silently
drop the record otherwise. -/
def storeAnalysis (k : AKind) (session_id : String) (rec : Nat) (st : LLMState) :
    LLMState :=
  match alistLookup st.llm_sessions session_id with
  | none => st
  | some sess =>
      ⟨dictInsert st.llm_sessions session_id
        (setKindList k (kindList k sess ++ [rec]) sess)⟩

/-- Python `l[-10:]`: the at-most-10 most recent elements, order kept,
source list untouched. -/
def lastTen (l : List Nat) : List Nat :=
  l.drop (l.length - 10)

/-- Response of `GET /llm/insights/{session_id}`. -/
structure InsightsOut : Type where
  video_analyses : List Nat
  audio_analyses : List Nat
  screen_analyses : List Nat
  total_analyses : Nat
deriving DecidableEq, Repr

/-- Result of `get_session_insights`: HTTP 404 for an unknown session,
otherwise the per-kind `[-10:]` tails and the total count. -/
inductive InsightsResult : Type
  | notFound
  | ok (out : InsightsOut)
deriving DecidableEq, Repr

/-- `get_session_insights` endpoint (llm_processor.py:363-379): raise
HTTP 404 when the session id is unknown, else return the last ten
records of each kind (slices copy; nothing is removed from the store). -/
def get_session_insights (session_id : String) (st : LLMState) : InsightsResult :=
  match alistLookup st.llm_sessions session_id with
  | none => .notFound
  | some sess =>
      .ok ⟨lastTen sess.video_analysis, lastTen sess.audio_analysis,
        lastTen sess.screen_analysis,
        sess.video_analysis.length + sess.audio_analysis.length
          + sess.screen_analysis.length⟩

/-- Operations on the insight store reachable from the websocket
endpoints: a client connecting to a session, and one analysis record
being stored. -/
inductive LLMOp : Type
  | conn (ws : Nat) (session_id : String)
  | store (k : AKind) (session_id : String) (rec : Nat)
deriving DecidableEq, Repr

/-- The session id an operation names. -/
def LLMOp.sessionOf : LLMOp → String
  | .conn _ s => s
  | .store _ s _ => s

def LLMOp.isConn : LLMOp → Bool
  | .conn _ _ => true
  | _ => false

def applyLLMOp (st : LLMState) (op : LLMOp) : LLMState :=
  match op with
  | .conn ws s => connectLLM ws s st
  | .store k s r => storeAnalysis k s r st

def runLLMOps (ops : List LLMOp) : LLMState :=
  ops.foldl applyLLMOp LLMState.empty

/-! ## Association-list lemmas -/

theorem alistLookup_dictInsert_self {κ β : Type} [DecidableEq κ]
    (l : List (κ × β)) (k : κ) (v : β) :
    alistLookup (dictInsert l k v) k = some v := by
  induction l with
  | nil => simp [dictInsert, alistLookup]
  | cons q rest ih =>
      obtain ⟨a, b⟩ := q
      by_cases h : a = k <;> simp [dictInsert, alistLookup, h, ih]

theorem mem_dictInsert {κ β : Type} [DecidableEq κ] {l : List (κ × β)} {k : κ}
    {v : β} {p : κ × β} (hp : p ∈ dictInsert l k v) : p ∈ l ∨ p = (k, v) := by
  induction l with
  | nil => right; simpa [dictInsert] using hp
  | cons q rest ih =>
      obtain ⟨a, b⟩ := q
      by_cases h : a = k
      · simp only [dictInsert, if_pos h, List.mem_cons] at hp
        rcases hp with h1 | h1
        · right; exact h1
        · left; exact List.mem_cons_of_mem _ h1
      · simp only [dictInsert, if_neg h, List.mem_cons] at hp
        rcases hp with h1 | h1
        · left; exact h1 ▸ List.mem_cons_self _ _
        · rcases ih h1 with h2 | h2
          · left; exact List.mem_cons_of_mem _ h2
          · right; exact h2

theorem containsKey_cons_false {κ β : Type} [DecidableEq κ] {a : κ} {b : β}
    {rest : List (κ × β)} {k : κ} (h : containsKey ((a, b) :: rest) k = false) :
    a ≠ k ∧ containsKey rest k = false := by
  by_cases hak : a = k <;> simp [containsKey, alistLookup, hak] at h ⊢
  exact h

theorem dictInsert_of_not_containsKey {κ β : Type} [DecidableEq κ]
    {l : List (κ × β)} {k : κ} (h : containsKey l k = false) (v : β) :
    dictInsert l k v = l ++ [(k, v)] := by
  induction l with
  | nil => simp [dictInsert]
  | cons q rest ih =>
      obtain ⟨a, b⟩ := q
      obtain ⟨hak, hrest⟩ := containsKey_cons_false h
      simp [dictInsert, hak, ih hrest]

theorem alistLookup_append_right {κ β : Type} [DecidableEq κ]
    {l : List (κ × β)} {k : κ} (h : containsKey l k = false) (v : β) :
    alistLookup (l ++ [(k, v)]) k = some v := by
  induction l with
  | nil => simp [alistLookup]
  | cons q rest ih =>
      obtain ⟨a, b⟩ := q
      obtain ⟨hak, hrest⟩ := containsKey_cons_false h
      simp [alistLookup, hak, ih hrest]

theorem dictInsert_append_of_not_containsKey {κ β : Type} [DecidableEq κ]
    {l : List (κ × β)} {k : κ} (h : containsKey l k = false) (v w : β) :
    dictInsert (l ++ [(k, w)]) k v = l ++ [(k, v)] := by
  induction l with
  | nil => simp [dictInsert]
  | cons q rest ih =>
      obtain ⟨a, b⟩ := q
      obtain ⟨hak, hrest⟩ := containsKey_cons_false h
      simp [dictInsert, hak, ih hrest]

theorem mem_alistErase {κ β : Type} [DecidableEq κ] {l : List (κ × β)} {k : κ}
    {p : κ × β} (hp : p ∈ alistErase l k) : p ∈ l := by
  induction l with
  | nil => simp [alistErase] at hp
  | cons q rest ih =>
      obtain ⟨a, b⟩ := q
      by_cases h : a = k
      · simp only [alistErase, if_pos h] at hp
        exact List.mem_cons_of_mem _ hp
      · simp only [alistErase, if_neg h, List.mem_cons] at hp
        rcases hp with h1 | h1
        · exact h1 ▸ List.mem_cons_self _ _
        · exact List.mem_cons_of_mem _ (ih h1)

/-! ## Room lifecycle lemmas (C1) -/

/-- `join_room` keeps every room member list non-empty: the touched room
ends with `... ++ [sid]`, the rest are untouched. -/
theorem roomsNonempty_join (sid : Nat) (r u : String) (st : SigState)
    (hst : roomsNonempty st) : roomsNonempty (join_room sid r u st).1 := by
  intro p hp
  by_cases hc : containsKey st.rooms r
  · simp only [join_room, if_pos hc] at hp
    rcases mem_dictInsert hp with h1 | h1
    · exact hst p h1
    · rw [h1]; simp
  · have hc0 : containsKey st.rooms r = false := by simpa using hc
    simp only [join_room, if_neg hc, alistLookup_append_right hc0,
      Option.getD_some, dictInsert_append_of_not_containsKey hc0] at hp
    rcases List.mem_append.mp hp with h1 | h1
    · exact hst p h1
    · rw [List.mem_singleton.mp h1]; simp

/-- `leave_room` keeps every room member list non-empty: a room emptied
by the removal is deleted in the same step. -/
theorem roomsNonempty_leave (sid : Nat) (r : String) (st : SigState)
    (hst : roomsNonempty st) : roomsNonempty (leave_room sid r st).1 := by
  intro p hp
  rcases hms : alistLookup st.rooms r with _ | ms
  · simp only [leave_room, hms] at hp
    exact hst p hp
  · by_cases hsid : sid ∈ ms
    · by_cases hemp : listRemove ms sid = []
      · simp only [leave_room, hms, if_pos hsid, if_pos hemp] at hp
        exact hst p (mem_alistErase hp)
      · simp only [leave_room, hms, if_pos hsid, if_neg hemp] at hp
        rcases mem_dictInsert hp with h1 | h1
        · exact hst p h1
        · rw [h1]; exact hemp
    · simp only [leave_room, hms, if_neg hsid] at hp
      exact hst p hp

theorem roomsNonempty_runAux (ops : List SigOp) (st : SigState)
    (h : ∀ op ∈ ops, op.isDisc = false) (hst : roomsNonempty st) :
    roomsNonempty (ops.foldl applySigOp st) := by
  induction ops generalizing st with
  | nil => simpa using hst
  | cons op rest ih =>
      have hop := h op (List.mem_cons_self _ _)
      have hrest : ∀ o ∈ rest, o.isDisc = false :=
        fun o ho => h o (List.mem_cons_of_mem _ ho)
      rw [List.foldl_cons]
      refine ih _ hrest ?_
      cases op with
      | join sid r u => exact roomsNonempty_join sid r u st hst
      | leave sid r => exact roomsNonempty_leave sid r st hst
      | disc sid => simp [SigOp.isDisc] at hop

/-- C1 (counterexample): a single join followed by a transport
disconnect leaves room `"r"` present in the registry with an empty
member list — the disconnect handler (webrtc.py:25-37) removes the sid
but, unlike `leave_room` (webrtc.py:83-85), never deletes the emptied
room, so the claimed invariant fails for sequences containing a
disconnect. -/
theorem C1_counterexample :
    alistLookup (runSigOps [.join 0 "r" "u", .disc 0]).rooms "r" = some [] ∧
    ¬ roomsNonempty (runSigOps [.join 0 "r" "u", .disc 0]) := by
  constructor
  · rfl
  · decide

/-- C1 (amended): for every sequence of `join_room` and `leave_room`
operations (no transport disconnects), a room id is present in the
registry's room map only with a non-empty member list; the
deregistration that makes a room's member set empty deletes the room in
the same step when it comes from an explicit leave. -/
theorem C1_amended (ops : List SigOp) (h : ∀ op ∈ ops, op.isDisc = false) :
    roomsNonempty (runSigOps ops) := by
  refine roomsNonempty_runAux ops SigState.empty h ?_
  intro p hp
  simp [SigState.empty] at hp

/-- C1 amended-claim witness: a concrete join/join/leave/leave run,
ending with the emptied room deleted. -/
theorem C1_amended_witness :
    (∀ op ∈ [SigOp.join 0 "r" "a", SigOp.join 1 "r" "b",
        SigOp.leave 0 "r", SigOp.leave 1 "r"], op.isDisc = false) ∧
    roomsNonempty (runSigOps [SigOp.join 0 "r" "a", SigOp.join 1 "r" "b",
        SigOp.leave 0 "r", SigOp.leave 1 "r"]) :=
  ⟨by decide,
    C1_amended [SigOp.join 0 "r" "a", SigOp.join 1 "r" "b",
      SigOp.leave 0 "r", SigOp.leave 1 "r"] (by decide)⟩

/-! ## Signaling router lemmas (C3, C4, C5) -/

theorem findTarget_eq_none {l : List (Nat × String)} {u : String}
    (h : ∀ p ∈ l, p.2 ≠ u) : findTarget l u = none := by
  induction l with
  | nil => rfl
  | cons q rest ih =>
      obtain ⟨s, uid⟩ := q
      have h1 : uid ≠ u := h (s, uid) (List.mem_cons_self _ _)
      simp only [findTarget, if_neg h1]
      exact ih fun p hp => h p (List.mem_cons_of_mem _ hp)

/-- C3: when no registered connection carries the target logical user
id, each of the three signaling handlers sends exactly one error
envelope, addressed to the sender's personal room, and that emit is
delivered to the sender alone — no broadcast, no retry, zero other
recipients.  The handlers do not mutate state (they only read
`participants`), so no state component is returned. -/
theorem C3_error_to_sender_only (k : SignalKind) (sid : Nat)
    (payload target : String) (st : SigState)
    (h : ∀ p ∈ st.participants, p.2 ≠ target) :
    signalRoute k sid payload target st =
      [⟨"error", .errorMsg "Target user not found", .toSid sid, none⟩] ∧
    ∀ e ∈ signalRoute k sid payload target st,
      emitRecipients st.sioRooms e = [sid] := by
  have hft := findTarget_eq_none h
  refine ⟨by simp [signalRoute, hft], ?_⟩
  intro e he
  simp only [signalRoute, hft, List.mem_singleton] at he
  subst he
  rfl

/-- C3 witness: room `"r"` holds only `alice`; an offer to the absent
`bob` yields one error envelope to the sender. -/
theorem C3_witness :
    (∀ p ∈ (⟨[("r", [1])], [(1, "alice")], [("r", [1])]⟩ : SigState).participants,
        p.2 ≠ "bob") ∧
    (signalRoute .offer 1 "P" "bob" ⟨[("r", [1])], [(1, "alice")], [("r", [1])]⟩ =
        [⟨"error", .errorMsg "Target user not found", .toSid 1, none⟩] ∧
      ∀ e ∈ signalRoute .offer 1 "P" "bob"
          ⟨[("r", [1])], [(1, "alice")], [("r", [1])]⟩,
        emitRecipients [("r", [1])] e = [1]) :=
  ⟨by decide, C3_error_to_sender_only .offer 1 "P" "bob" _ (by decide)⟩

/-- C4: when the target logical user id resolves to a connection, the
handler emits exactly one event — named after the kind, carrying the
payload under the kind's field and `from_user_id` equal to the sender's
logical id — addressed to the resolved connection's personal room, so
exactly that connection receives it and nobody else does. -/
theorem C4_forward_to_target_only (k : SignalKind) (sid target_sid : Nat)
    (payload target sender_user : String) (st : SigState)
    (ht : findTarget st.participants target = some target_sid)
    (hs : alistLookup st.participants sid = some sender_user) :
    signalRoute k sid payload target st =
      [⟨eventName k, .signal (fieldName k) payload sender_user,
        .toSid target_sid, none⟩] ∧
    ∀ e ∈ signalRoute k sid payload target st,
      emitRecipients st.sioRooms e = [target_sid] := by
  refine ⟨by simp [signalRoute, ht, pget, hs], ?_⟩
  intro e he
  simp only [signalRoute, pget, hs, ht, Option.getD_some, List.mem_singleton] at he
  subst he
  rfl

/-- C4 witness: `alice` (sid 1) offers to `bob` (sid 2) in room `"r"`;
sid 2 receives the single forwarded offer. -/
theorem C4_witness :
    findTarget ([(1, "alice"), (2, "bob")] : List (Nat × String)) "bob" = some 2 ∧
    alistLookup ([(1, "alice"), (2, "bob")] : List (Nat × String)) 1 = some "alice" ∧
    (signalRoute .offer 1 "P" "bob"
        ⟨[("r", [1, 2])], [(1, "alice"), (2, "bob")], [("r", [1, 2])]⟩ =
        [⟨"offer", .signal "offer" "P" "alice", .toSid 2, none⟩] ∧
      ∀ e ∈ signalRoute .offer 1 "P" "bob"
          ⟨[("r", [1, 2])], [(1, "alice"), (2, "bob")], [("r", [1, 2])]⟩,
        emitRecipients [("r", [1, 2])] e = [2]) :=
  ⟨by decide, by decide,
    C4_forward_to_target_only .offer 1 2 "P" "bob" "alice" _ (by decide) (by decide)⟩

/-- C5 (counterexample): the lookup loop (webrtc.py:108-112) walks the
module-wide `participants` dict, not the sender's room.  With `alice`
(sid 1) alone in room `"r1"` and `bob` (sid 5) only in room `"r2"`, an
offer from `alice` to `bob` is forwarded to sid 5 — a connection that is
not a member of the sender's room — instead of the error the claim
requires. -/
theorem C5_counterexample :
    signalRoute .offer 1 "P" "bob"
        ⟨[("r1", [1]), ("r2", [5])], [(1, "alice"), (5, "bob")],
          [("r1", [1]), ("r2", [5])]⟩ =
      [⟨"offer", .signal "offer" "P" "alice", .toSid 5, none⟩] ∧
    5 ∉ pget ([("r1", [1]), ("r2", [5])] : List (String × List Nat)) "r1" [] := by
  constructor
  · rfl
  · decide

/-- Projection facts of `join_room` used by C5. -/
theorem join_room_participants (sid : Nat) (r u : String) (st : SigState) :
    (join_room sid r u st).1.participants = dictInsert st.participants sid u := rfl

def runJoins (js : List (Nat × String × String)) : SigState :=
  js.foldl (fun st j => (join_room j.1 j.2.1 j.2.2 st).1) SigState.empty

theorem containsKey_append_singleton_false {κ β : Type} [DecidableEq κ]
    {l : List (κ × β)} {k k' : κ} {v : β}
    (h : containsKey l k = false) (hne : k' ≠ k) :
    containsKey (l ++ [(k', v)]) k = false := by
  induction l with
  | nil => simp [containsKey, alistLookup, hne]
  | cons q rest ih =>
      obtain ⟨a, b⟩ := q
      obtain ⟨hak, hrest⟩ := containsKey_cons_false h
      simp only [List.cons_append, containsKey, alistLookup, if_neg hak]
      exact ih hrest

theorem runJoins_participants_aux (js : List (Nat × String × String))
    (st : SigState) (hnd : (js.map (fun j => j.1)).Nodup)
    (hkeys : ∀ j ∈ js, containsKey st.participants j.1 = false) :
    (js.foldl (fun st j => (join_room j.1 j.2.1 j.2.2 st).1) st).participants =
      st.participants ++ js.map (fun j => (j.1, j.2.2)) := by
  induction js generalizing st with
  | nil => simp
  | cons j rest ih =>
      have hj := hkeys j (List.mem_cons_self _ _)
      rw [List.map_cons] at hnd
      have hhead : j.1 ∉ rest.map (fun x => x.1) := (List.nodup_cons.mp hnd).1
      have hnd' : (rest.map (fun x => x.1)).Nodup := (List.nodup_cons.mp hnd).2
      have hstep : (join_room j.1 j.2.1 j.2.2 st).1.participants =
          st.participants ++ [(j.1, j.2.2)] := by
        rw [join_room_participants, dictInsert_of_not_containsKey hj]
      have hkeys' : ∀ j' ∈ rest,
          containsKey (join_room j.1 j.2.1 j.2.2 st).1.participants j'.1 = false := by
        intro j' hj'
        have hne : j.1 ≠ j'.1 := fun he =>
          hhead (by rw [he]; exact List.mem_map_of_mem _ hj')
        rw [hstep]
        exact containsKey_append_singleton_false
          (hkeys j' (List.mem_cons_of_mem _ hj')) hne
      rw [List.foldl_cons, ih _ hnd' hkeys', hstep]
      simp

/-- With pairwise-distinct sids, the participants dict after a sequence
of joins lists exactly the (sid, user id) pairs in join order: duplicate
logical user ids never evict or replace one another. -/
theorem runJoins_participants (js : List (Nat × String × String))
    (hnd : (js.map (fun j => j.1)).Nodup) :
    (runJoins js).participants = js.map (fun j => (j.1, j.2.2)) := by
  have := runJoins_participants_aux js SigState.empty hnd (by intro j hj; rfl)
  simpa [SigState.empty] using this

theorem findTarget_map (js : List (Nat × String × String)) (u : String) :
    findTarget (js.map (fun j => (j.1, j.2.2))) u =
      (js.find? (fun j => j.2.2 == u)).map (fun j => j.1) := by
  induction js with
  | nil => rfl
  | cons j rest ih =>
      by_cases h : j.2.2 = u
      · simp [findTarget, h, List.find?_cons_of_pos]
      · rw [List.map_cons, List.find?_cons_of_neg _ (by simpa using h)]
        simp only [findTarget, if_neg h]
        exact ih

/-- C5 (amended): the signaling lookup scans the global participants
registry — every registered connection in every room, in global join
order — not just the sender's room.  Among all connections sharing the
user id anywhere, the earliest joiner is returned (`find?` over the join
sequence), duplicate joins never evict each other, and the offer is
forwarded to that earliest joiner's socket. -/
theorem C5_amended (js : List (Nat × String × String)) (u : String)
    (hnd : (js.map (fun j => j.1)).Nodup) :
    (runJoins js).participants = js.map (fun j => (j.1, j.2.2)) ∧
    findTarget (runJoins js).participants u =
      (js.find? (fun j => j.2.2 == u)).map (fun j => j.1) ∧
    ∀ (sid : Nat) (payload : String) (j : Nat × String × String),
      js.find? (fun j => j.2.2 == u) = some j →
      signalRoute .offer sid payload u (runJoins js) =
        [⟨"offer", .signal "offer" payload
            (pget (runJoins js).participants sid "Unknown"), .toSid j.1, none⟩] := by
  have hp := runJoins_participants js hnd
  have hf : findTarget (runJoins js).participants u =
      (js.find? (fun j => j.2.2 == u)).map (fun j => j.1) := by
    rw [hp, findTarget_map]
  refine ⟨hp, hf, ?_⟩
  intro sid payload j hj
  simp [signalRoute, hf, hj, eventName, fieldName]

/-- C5 amended-claim witness: `bob` joins twice (sids 2 and 3, rooms
`"r1"` and `"r2"`); both registrations survive and the lookup resolves
to the earliest, sid 2. -/
theorem C5_amended_witness :
    (([(1, "r1", "alice"), (2, "r1", "bob"), (3, "r2", "bob")].map
        (fun j => j.1) : List Nat).Nodup) ∧
    ((runJoins [(1, "r1", "alice"), (2, "r1", "bob"), (3, "r2", "bob")]).participants =
        [(1, "alice"), (2, "bob"), (3, "bob")] ∧
      findTarget (runJoins [(1, "r1", "alice"), (2, "r1", "bob"),
          (3, "r2", "bob")]).participants "bob" = some 2 ∧
      ∀ (sid : Nat) (payload : String) (j : Nat × String × String),
        ([(1, "r1", "alice"), (2, "r1", "bob"), (3, "r2", "bob")].find?
            (fun j => j.2.2 == "bob")) = some j →
        signalRoute .offer sid payload "bob"
            (runJoins [(1, "r1", "alice"), (2, "r1", "bob"), (3, "r2", "bob")]) =
          [⟨"offer", .signal "offer" payload
              (pget (runJoins [(1, "r1", "alice"), (2, "r1", "bob"),
                (3, "r2", "bob")]).participants sid "Unknown"), .toSid j.1, none⟩]) := by
  have h := C5_amended [(1, "r1", "alice"), (2, "r1", "bob"), (3, "r2", "bob")]
    "bob" (by decide)
  exact ⟨by decide, by rw [h.1]; rfl, by rw [h.2.1]; rfl, h.2.2⟩

/-! ## Broadcast-loop lemmas (C2) -/

/-- The loop is a no-op once the index has reached the end. -/
theorem pyForBroadcast_done (fails : Nat → Bool) (conns : List Nat) (i : Nat)
    (h : ¬ i < conns.length) : pyForBroadcast fails conns i = (conns, []) := by
  rw [pyForBroadcast]
  simp [h]

/-- When no element at or after index `i` fails, the loop delivers to
the whole suffix and leaves the list unchanged. -/
theorem pyForBroadcast_no_fail (fails : Nat → Bool) :
    ∀ (n : Nat) (conns : List Nat) (i : Nat), conns.length - i ≤ n →
      (∀ c ∈ conns.drop i, fails c = false) →
      pyForBroadcast fails conns i = (conns, conns.drop i) := by
  intro n
  induction n with
  | zero =>
      intro conns i hn h
      have hge : ¬ i < conns.length := by omega
      have hle : conns.length ≤ i := by omega
      rw [pyForBroadcast_done fails conns i hge, List.drop_eq_nil_of_le hle]
  | succ n ih =>
      intro conns i hn h
      by_cases hlt : i < conns.length
      · have hdrop : conns.drop i = conns.get ⟨i, hlt⟩ :: conns.drop (i + 1) := by
          rw [List.get_eq_getElem]
          exact List.drop_eq_getElem_cons hlt
        have hc : conns.get ⟨i, hlt⟩ ∈ conns.drop i := by
          rw [hdrop]; exact List.mem_cons_self _ _
        have hfc := h _ hc
        have hrec := ih conns (i + 1) (by omega)
          (fun c hcm => h c (by rw [hdrop]; exact List.mem_cons_of_mem _ hcm))
        rw [pyForBroadcast]
        simp only [dif_pos hlt, hfc, Bool.false_eq_true, if_false, hrec]
        rw [hdrop]
      · have hle : conns.length ≤ i := by omega
        rw [pyForBroadcast_done fails conns i hlt, List.drop_eq_nil_of_le hle]

/-- Shifting the loop past an already-processed, non-failing head. -/
theorem pyForBroadcast_cons (fails : Nat → Bool) (x : Nat) (hx : fails x = false) :
    ∀ (n : Nat) (conns : List Nat) (i : Nat), conns.length - i ≤ n →
      pyForBroadcast fails (x :: conns) (i + 1) =
        ((x :: (pyForBroadcast fails conns i).1),
          (pyForBroadcast fails conns i).2) := by
  intro n
  induction n with
  | zero =>
      intro conns i hn
      have h2 : ¬ i < conns.length := by omega
      have h1 : ¬ i + 1 < (x :: conns).length := by
        simp only [List.length_cons]; omega
      rw [pyForBroadcast_done fails (x :: conns) (i + 1) h1,
        pyForBroadcast_done fails conns i h2]
  | succ n ih =>
      intro conns i hn
      by_cases h2 : i < conns.length
      · have h1 : i + 1 < (x :: conns).length := by
          simp only [List.length_cons]; omega
        have hget : (x :: conns).get ⟨i + 1, h1⟩ = conns.get ⟨i, h2⟩ := rfl
        by_cases hf : fails (conns.get ⟨i, h2⟩)
        · have hxc : x ≠ conns.get ⟨i, h2⟩ := by
            intro he
            rw [← he, hx] at hf
            exact Bool.false_ne_true hf
          have herase : listRemove (x :: conns) (conns.get ⟨i, h2⟩) =
              x :: listRemove conns (conns.get ⟨i, h2⟩) := by
            simp only [listRemove, if_neg hxc]
          have hmem : conns.get ⟨i, h2⟩ ∈ conns := List.get_mem conns i h2
          have hlen := length_listRemove_add_one hmem
          have hrec := ih (listRemove conns (conns.get ⟨i, h2⟩)) (i + 1) (by omega)
          have hL : pyForBroadcast fails (x :: conns) (i + 1) =
              pyForBroadcast fails (x :: listRemove conns (conns.get ⟨i, h2⟩))
                (i + 1 + 1) := by
            rw [pyForBroadcast]
            simp only [dif_pos h1, hget, hf, if_true, herase]
          have hR : pyForBroadcast fails conns i =
              pyForBroadcast fails (listRemove conns (conns.get ⟨i, h2⟩)) (i + 1) := by
            rw [pyForBroadcast]
            simp only [dif_pos h2, hf, if_true]
          rw [hL, hR, hrec]
        · have hrec := ih conns (i + 1) (by omega)
          have hL : pyForBroadcast fails (x :: conns) (i + 1) =
              ((pyForBroadcast fails (x :: conns) (i + 1 + 1)).1,
                conns.get ⟨i, h2⟩ :: (pyForBroadcast fails (x :: conns) (i + 1 + 1)).2) := by
            rw [pyForBroadcast]
            simp only [dif_pos h1, hget, hf, Bool.false_eq_true, if_false]
          have hR : pyForBroadcast fails conns i =
              ((pyForBroadcast fails conns (i + 1)).1,
                conns.get ⟨i, h2⟩ :: (pyForBroadcast fails conns (i + 1)).2) := by
            rw [pyForBroadcast]
            simp only [dif_pos h2, hf, Bool.false_eq_true, if_false]
          rw [hL, hR, hrec]
      · have h1 : ¬ i + 1 < (x :: conns).length := by
          simp only [List.length_cons]; omega
        rw [pyForBroadcast_done fails (x :: conns) (i + 1) h1,
          pyForBroadcast_done fails conns i h2]

/-- The full characterisation of one broadcast pass in which exactly one
walked member fails: the members before the failure are delivered, the
failing member is removed from the live list, its immediate successor is
skipped by the advancing index, and the remaining members are
delivered. -/
theorem pyForBroadcast_single_fail (fails : Nat → Bool) (A B : List Nat)
    (f : Nat) (hA : ∀ a ∈ A, fails a = false) (hB : ∀ b ∈ B, fails b = false)
    (hf : fails f = true) :
    pyForBroadcast fails (A ++ f :: B) 0 = (A ++ B, A ++ B.tail) := by
  induction A with
  | nil =>
      have hlt : 0 < ([] ++ f :: B : List Nat).length := by simp
      have hget : ([] ++ f :: B : List Nat).get ⟨0, hlt⟩ = f := rfl
      have herase : listRemove ([] ++ f :: B : List Nat) f = B := by
        simp [listRemove]
      have hstep : pyForBroadcast fails ([] ++ f :: B) 0 =
          pyForBroadcast fails B 1 := by
        rw [pyForBroadcast]
        simp only [dif_pos hlt, hget, hf, if_true, herase]
      have hrec := pyForBroadcast_no_fail fails B.length B 1 (by omega)
        (fun c hc => hB c (List.mem_of_mem_drop hc))
      rw [hstep, hrec, List.drop_one]
      simp
  | cons a A' ih =>
      have hfa : fails a = false := hA a (List.mem_cons_self _ _)
      have hA' : ∀ x ∈ A', fails x = false :=
        fun x hx => hA x (List.mem_cons_of_mem _ hx)
      have hlt : 0 < ((a :: A') ++ f :: B : List Nat).length := by simp
      have hget : ((a :: A') ++ f :: B : List Nat).get ⟨0, hlt⟩ = a := rfl
      have hstep : pyForBroadcast fails ((a :: A') ++ f :: B) 0 =
          ((pyForBroadcast fails ((a :: A') ++ f :: B) 1).1,
            a :: (pyForBroadcast fails ((a :: A') ++ f :: B) 1).2) := by
        rw [pyForBroadcast]
        simp only [dif_pos hlt, hget, hfa, Bool.false_eq_true, if_false]
      have hshift := pyForBroadcast_cons fails a hfa
        (A' ++ f :: B).length (A' ++ f :: B) 0 (by omega)
      rw [show ((0 : Nat) + 1) = 1 from rfl] at hshift
      rw [hstep]
      simp only [List.cons_append] at hshift ⊢
      rw [hshift, ih hA']

/-- Evaluation rule for `broadcast_to_session` on a present session. -/
theorem broadcast_to_session_eq (fails : Nat → Bool) (session_id : String)
    (st : MediaState) (conns : List Nat)
    (hs : alistLookup st.media_sessions session_id = some conns) :
    broadcast_to_session fails session_id st =
      (⟨dictInsert st.media_sessions session_id
          (pyForBroadcast fails conns 0).1⟩,
        (pyForBroadcast fails conns 0).2) := by
  unfold broadcast_to_session
  rw [hs]

/-- C2 (counterexample): session `"s"` has three members `[0, 1, 2]` and
only member `1` fails delivery.  The loop (media.py:49-54) removes `1`
from the list it is iterating, so member `2` shifts into the vacated
slot and is skipped: the delivered list is `[0]`, not the claimed
`N − 1 = 2` other members — member `2` never receives the message even
though its send would have succeeded. -/
theorem C2_counterexample :
    broadcast_to_session (fun c => c == 1) "s" ⟨[("s", [0, 1, 2])]⟩ =
      (⟨[("s", [0, 2])]⟩, [0]) ∧
    (2 : Nat) ∉ (broadcast_to_session (fun c => c == 1) "s"
      ⟨[("s", [0, 1, 2])]⟩).2 := by
  have h := pyForBroadcast_single_fail (fun c => c == 1) [0] [2] 1
    (by decide) (by decide) (by decide)
  have h' : pyForBroadcast (fun c => c == 1) [0, 1, 2] 0 = ([0, 2], [0]) := by
    simpa using h
  have hmain : broadcast_to_session (fun c => c == 1) "s" ⟨[("s", [0, 1, 2])]⟩ =
      (⟨[("s", [0, 2])]⟩, [0]) := by
    rw [broadcast_to_session_eq (fun c => c == 1) "s" ⟨[("s", [0, 1, 2])]⟩
      [0, 1, 2] rfl, h']
    rfl
  exact ⟨hmain, by rw [hmain]; decide⟩

/-- C2 (amended): during a broadcast in which exactly one member `f`
fails (snapshot `A ++ f :: B`), the failed member is removed from the
membership list, but the removal happens during the iteration rather
than after it: every member of `A` receives the message, the member
immediately after `f` is skipped, and the rest of `B` receives it — so
only `N − 2` of the other members are reached whenever the failed member
is not last (all `N − 1` when it is last). -/
theorem C2_amended (fails : Nat → Bool) (session_id : String) (st : MediaState)
    (A B : List Nat) (f : Nat)
    (hs : alistLookup st.media_sessions session_id = some (A ++ f :: B))
    (hA : ∀ a ∈ A, fails a = false) (hB : ∀ b ∈ B, fails b = false)
    (hf : fails f = true) :
    broadcast_to_session fails session_id st =
      (⟨dictInsert st.media_sessions session_id (A ++ B)⟩, A ++ B.tail) ∧
    f ∉ A ++ B := by
  constructor
  · rw [broadcast_to_session_eq fails session_id st (A ++ f :: B) hs,
      pyForBroadcast_single_fail fails A B f hA hB hf]
  · intro hmem
    rcases List.mem_append.mp hmem with h1 | h1
    · rw [hA f h1] at hf
      exact Bool.false_ne_true hf
    · rw [hB f h1] at hf
      exact Bool.false_ne_true hf

/-- C2 amended-claim witness: members `[0, 1, 2, 3]`, member `1` fails:
final list `[0, 2, 3]`, delivered `[0, 3]` (member `2` skipped). -/
theorem C2_amended_witness :
    alistLookup ([("s", [0, 1, 2, 3])] : List (String × List Nat)) "s" =
      some ([0] ++ 1 :: [2, 3]) ∧
    (broadcast_to_session (fun c => c == 1) "s" ⟨[("s", [0, 1, 2, 3])]⟩ =
      (⟨dictInsert [("s", [0, 1, 2, 3])] "s" ([0] ++ [2, 3])⟩, [0] ++ [2, 3].tail) ∧
    (1 : Nat) ∉ ([0] ++ [2, 3] : List Nat)) :=
  ⟨rfl, C2_amended (fun c => c == 1) "s" ⟨[("s", [0, 1, 2, 3])]⟩ [0] [2, 3] 1
    rfl (by decide) (by decide) (by decide)⟩

/-! ## Insight-store lemmas (C6, C7) -/

theorem kindList_setKindList (k : AKind) (l : List Nat) (s : LLMSession) :
    kindList k (setKindList k l s) = l := by
  cases k <;> rfl

theorem setKindList_setKindList (k : AKind) (l l' : List Nat) (s : LLMSession) :
    setKindList k l (setKindList k l' s) = setKindList k l s := by
  cases k <;> rfl

theorem setKindList_kindList (k : AKind) (s : LLMSession) :
    setKindList k (kindList k s) s = s := by
  cases k <;> rfl

theorem storeAnalysis_lookup (k : AKind) (s : String) (rec : Nat) (st : LLMState)
    (sess : LLMSession) (h : alistLookup st.llm_sessions s = some sess) :
    alistLookup (storeAnalysis k s rec st).llm_sessions s =
      some (setKindList k (kindList k sess ++ [rec]) sess) := by
  unfold storeAnalysis
  rw [h]
  exact alistLookup_dictInsert_self _ _ _

/-- Storing a batch of records (one handler invocation per record). -/
def runStores (k : AKind) (s : String) (rs : List Nat) (st : LLMState) : LLMState :=
  rs.foldl (fun st r => storeAnalysis k s r st) st

theorem runStores_lookup (k : AKind) (s : String) (rs : List Nat) :
    ∀ (st : LLMState) (sess : LLMSession),
      alistLookup st.llm_sessions s = some sess →
      alistLookup (runStores k s rs st).llm_sessions s =
        some (setKindList k (kindList k sess ++ rs) sess) := by
  induction rs with
  | nil =>
      intro st sess h
      simp only [runStores, List.foldl_nil, List.append_nil]
      rw [setKindList_kindList]
      exact h
  | cons r rest ih =>
      intro st sess h
      have h1 := storeAnalysis_lookup k s r st sess h
      have h2 := ih (storeAnalysis k s r st) _ h1
      simp only [runStores, List.foldl_cons] at h2 ⊢
      rw [h2, kindList_setKindList, setKindList_setKindList, List.append_assoc,
        List.singleton_append]

theorem get_session_insights_eq (s : String) (st : LLMState) (sess : LLMSession)
    (h : alistLookup st.llm_sessions s = some sess) :
    get_session_insights s st =
      .ok ⟨lastTen sess.video_analysis, lastTen sess.audio_analysis,
        lastTen sess.screen_analysis,
        sess.video_analysis.length + sess.audio_analysis.length
          + sess.screen_analysis.length⟩ := by
  unfold get_session_insights
  rw [h]

/-- The per-kind list of the insights response. -/
def kindOut (k : AKind) (o : InsightsOut) : List Nat :=
  match k with
  | .video => o.video_analyses
  | .audio => o.audio_analyses
  | .screen => o.screen_analyses

/-- C6: open a session, append the records `rs` (k = `rs.length ≥ 10`)
of one kind; the insights read returns exactly the last 10 of them in
submission order, and the read is non-destructive — the stored per-kind
list still holds all `k` records. -/
theorem C6_tail_read (k : AKind) (ws : Nat) (s : String) (rs : List Nat)
    (h10 : 10 ≤ rs.length) :
    ∃ out,
      get_session_insights s
        (runStores k s rs (connectLLM ws s LLMState.empty)) = .ok out ∧
      kindOut k out = rs.drop (rs.length - 10) ∧
      (kindOut k out).length = 10 ∧
      rs.take (rs.length - 10) ++ kindOut k out = rs ∧
      (alistLookup (runStores k s rs
          (connectLLM ws s LLMState.empty)).llm_sessions s).map (kindList k) =
        some rs := by
  have hconn : alistLookup (connectLLM ws s LLMState.empty).llm_sessions s =
      some ⟨[ws], [], [], []⟩ := by
    simp [connectLLM, LLMState.empty, containsKey, alistLookup, dictInsert]
  have hkb : kindList k (⟨[ws], [], [], []⟩ : LLMSession) = [] := by
    cases k <;> rfl
  have hrun := runStores_lookup k s rs _ _ hconn
  rw [hkb, List.nil_append] at hrun
  refine ⟨_, get_session_insights_eq s _ _ hrun, ?_, ?_, ?_, ?_⟩
  · cases k <;> rfl
  · cases k <;> simp [kindOut, setKindList, lastTen] <;> omega
  · cases k <;> simp only [kindOut, setKindList, lastTen] <;>
      exact List.take_append_drop _ _
  · rw [hrun]
    simp [kindList_setKindList]

/-- C6 witness: twelve video records; the read returns the last ten. -/
theorem C6_witness :
    10 ≤ ([1, 2, 3, 4, 5, 6, 7, 8, 9, 10, 11, 12] : List Nat).length ∧
    ∃ out,
      get_session_insights "s1"
        (runStores .video "s1" [1, 2, 3, 4, 5, 6, 7, 8, 9, 10, 11, 12]
          (connectLLM 7 "s1" LLMState.empty)) = .ok out ∧
      kindOut .video out =
        ([1, 2, 3, 4, 5, 6, 7, 8, 9, 10, 11, 12] : List Nat).drop
          (([1, 2, 3, 4, 5, 6, 7, 8, 9, 10, 11, 12] : List Nat).length - 10) ∧
      (kindOut .video out).length = 10 ∧
      ([1, 2, 3, 4, 5, 6, 7, 8, 9, 10, 11, 12] : List Nat).take
          (([1, 2, 3, 4, 5, 6, 7, 8, 9, 10, 11, 12] : List Nat).length - 10) ++
        kindOut .video out = [1, 2, 3, 4, 5, 6, 7, 8, 9, 10, 11, 12] ∧
      (alistLookup (runStores .video "s1" [1, 2, 3, 4, 5, 6, 7, 8, 9, 10, 11, 12]
          (connectLLM 7 "s1" LLMState.empty)).llm_sessions "s1").map
        (kindList .video) = some [1, 2, 3, 4, 5, 6, 7, 8, 9, 10, 11, 12] :=
  ⟨by decide,
    C6_tail_read .video 7 "s1" [1, 2, 3, 4, 5, 6, 7, 8, 9, 10, 11, 12] (by decide)⟩

theorem alistLookup_dictInsert_ne {κ β : Type} [DecidableEq κ]
    (l : List (κ × β)) {k k' : κ} (v : β) (h : k ≠ k') :
    alistLookup (dictInsert l k v) k' = alistLookup l k' := by
  induction l with
  | nil => simp [dictInsert, alistLookup, h]
  | cons q rest ih =>
      obtain ⟨a, b⟩ := q
      by_cases hak : a = k
      · subst hak
        simp [dictInsert, alistLookup, h]
      · simp [dictInsert, alistLookup, hak, ih]

theorem alistLookup_append_singleton_ne {κ β : Type} [DecidableEq κ]
    (l : List (κ × β)) {k k' : κ} (v : β) (h : k ≠ k') :
    alistLookup (l ++ [(k, v)]) k' = alistLookup l k' := by
  induction l with
  | nil => simp [alistLookup, h]
  | cons q rest ih =>
      obtain ⟨a, b⟩ := q
      by_cases hak : a = k' <;> simp [alistLookup, hak, ih]

theorem connectLLM_preserves_none (ws : Nat) (s' s : String) (st : LLMState)
    (hne : s' ≠ s) (h : alistLookup st.llm_sessions s = none) :
    alistLookup (connectLLM ws s' st).llm_sessions s = none := by
  unfold connectLLM
  by_cases hc : containsKey st.llm_sessions s' = true
  · simp only [if_pos hc]
    rw [alistLookup_dictInsert_ne _ _ hne]
    exact h
  · simp only [if_neg hc]
    rw [alistLookup_dictInsert_ne _ _ hne, alistLookup_append_singleton_ne _ _ hne]
    exact h

theorem storeAnalysis_preserves_none (k : AKind) (s' : String) (rec : Nat)
    (st : LLMState) (s : String) (h : alistLookup st.llm_sessions s = none) :
    alistLookup (storeAnalysis k s' rec st).llm_sessions s = none := by
  unfold storeAnalysis
  rcases hl : alistLookup st.llm_sessions s' with _ | sess
  · exact h
  · by_cases he : s' = s
    · subst he
      rw [hl] at h
      cases h
  -- distinct keys: the insertion happens at key s' ≠ s
    · rw [alistLookup_dictInsert_ne _ _ he]
      exact h

theorem lookup_none_run (s : String) :
    ∀ (ops : List LLMOp) (st : LLMState),
      (∀ op ∈ ops, op.isConn = true → op.sessionOf ≠ s) →
      alistLookup st.llm_sessions s = none →
      alistLookup (ops.foldl applyLLMOp st).llm_sessions s = none := by
  intro ops
  induction ops with
  | nil =>
      intro st _ h0
      simpa using h0
  | cons op rest ih =>
      intro st hops h0
      rw [List.foldl_cons]
      refine ih _ (fun o ho hco => hops o (List.mem_cons_of_mem _ ho) hco) ?_
      cases op with
      | conn ws s' =>
          have hne : s' ≠ s := hops (.conn ws s') (List.mem_cons_self _ _) rfl
          exact connectLLM_preserves_none ws s' s st hne h0
      | store k s' rec => exact storeAnalysis_preserves_none k s' rec st s h0

/-- C7 (counterexample): a read of the unknown session `"s1"` yields the
HTTP 404 branch (`notFound`), not the empty-sequences response the claim
describes — llm_processor.py:366-367 raises before any tail is
computed. -/
theorem C7_counterexample :
    get_session_insights "s1" LLMState.empty = .notFound ∧
    get_session_insights "s1" LLMState.empty ≠ .ok ⟨[], [], [], 0⟩ := by
  decide

/-- C7 (amended): for every session id that was never opened by a
connect — even if analysis records were submitted under it, since a
store to an unknown session is silently dropped and creates nothing —
the insights read signals the not-found error to the caller instead of
returning an empty sequence. -/
theorem C7_amended (s : String) (ops : List LLMOp)
    (h : ∀ op ∈ ops, op.isConn = true → op.sessionOf ≠ s) :
    get_session_insights s (runLLMOps ops) = .notFound := by
  have h0 : alistLookup (LLMState.empty).llm_sessions s = none := rfl
  have hnone := lookup_none_run s ops LLMState.empty h h0
  unfold get_session_insights runLLMOps
  rw [hnone]

/-- C7 amended-claim witness: another session is opened and a record is
even submitted under `"s1"`, yet reading `"s1"` is a 404. -/
theorem C7_amended_witness :
    (∀ op ∈ [LLMOp.conn 0 "other", LLMOp.store .video "s1" 5],
      op.isConn = true → op.sessionOf ≠ "s1") ∧
    get_session_insights "s1"
      (runLLMOps [LLMOp.conn 0 "other", LLMOp.store .video "s1" 5]) = .notFound :=
  ⟨by decide,
    C7_amended "s1" [LLMOp.conn 0 "other", LLMOp.store .video "s1" 5] (by decide)⟩

/-! ## Stream-dispatch theorems (C8) -/

/-- C8 (counterexample): an inbound message with the unknown type
`"bogus"` is silently dropped — the handler returns with no outbound
frame at all, so no error envelope goes back to the originator; and a
`video_frame` message missing its required `data` field raises
`KeyError`, which the loop's only `except WebSocketDisconnect` handler
does not catch, so the connection is terminated —  both contradicting
the claim. -/
theorem C8_counterexample :
    handleStreamMessage (fun _ => false) "t0" "s"
        ⟨some "bogus", some "D", none, none, false⟩ ⟨[("s", [0])]⟩ =
      .ok (⟨[("s", [0])]⟩, []) ∧
    handleStreamMessage (fun _ => false) "t0" "s"
        ⟨some "video_frame", none, none, none, false⟩ ⟨[("s", [0])]⟩ =
      .error (.keyError "data") := by
  constructor <;> rfl

/-- Evaluation rule for the dispatch once the `"type"` key is present. -/
theorem handleStreamMessage_some (fails : Nat → Bool) (now session_id t : String)
    (md mts mu : Option String) (msf : Bool) (st : MediaState) :
    handleStreamMessage fails now session_id ⟨some t, md, mts, mu, msf⟩ st =
      if t = "video_frame" ∨ t = "audio_chunk" ∨ t = "screen_share" then
        match md with
        | none => .error (.keyError "data")
        | some d =>
            .ok ((broadcast_to_session fails session_id st).1,
              [(⟨t, d, mts.getD now, mu⟩,
                (broadcast_to_session fails session_id st).2)])
      else .ok (st, []) := rfl

/-- C8 (amended): a message whose `"type"` key is missing raises
`KeyError` (uncaught, so the connection is closed); a message whose type
value is unrecognized is silently dropped — no error envelope, no
broadcast, connection stays open; a recognized type missing its required
`"data"` key raises `KeyError` as well. -/
theorem C8_amended (fails : Nat → Bool) (now session_id : String) (msg : WireMsg)
    (st : MediaState) :
    (msg.type = none →
      handleStreamMessage fails now session_id msg st = .error (.keyError "type")) ∧
    (∀ t, msg.type = some t → t ≠ "video_frame" → t ≠ "audio_chunk" →
      t ≠ "screen_share" →
      handleStreamMessage fails now session_id msg st = .ok (st, [])) ∧
    (∀ t, msg.type = some t →
      (t = "video_frame" ∨ t = "audio_chunk" ∨ t = "screen_share") →
      msg.data = none →
      handleStreamMessage fails now session_id msg st = .error (.keyError "data")) := by
  obtain ⟨mt, md, mts, mu, msf⟩ := msg
  refine ⟨?_, ?_, ?_⟩
  · intro h
    have h' : mt = none := h
    subst h'
    rfl
  · intro t ht h1 h2 h3
    have ht' : mt = some t := ht
    subst ht'
    have hno : ¬ (t = "video_frame" ∨ t = "audio_chunk" ∨ t = "screen_share") := by
      rintro (h | h | h)
      exacts [h1 h, h2 h, h3 h]
    rw [handleStreamMessage_some, if_neg hno]
  · intro t ht hmem hd
    have ht' : mt = some t := ht
    subst ht'
    have hd' : md = none := hd
    subst hd'
    rw [handleStreamMessage_some, if_pos hmem]

/-- C8 amended-claim witness: the three malformed shapes at concrete
inputs. -/
theorem C8_amended_witness :
    handleStreamMessage (fun _ => false) "t0" "s"
        ⟨none, some "D", none, none, false⟩ ⟨[]⟩ = .error (.keyError "type") ∧
    handleStreamMessage (fun _ => false) "t0" "s"
        ⟨some "chat", some "D", none, none, false⟩ ⟨[]⟩ = .ok (⟨[]⟩, []) ∧
    handleStreamMessage (fun _ => false) "t0" "s"
        ⟨some "audio_chunk", none, none, none, false⟩ ⟨[]⟩ =
      .error (.keyError "data") :=
  ⟨(C8_amended (fun _ => false) "t0" "s" ⟨none, some "D", none, none, false⟩
      ⟨[]⟩).1 rfl,
    (C8_amended (fun _ => false) "t0" "s" ⟨some "chat", some "D", none, none, false⟩
      ⟨[]⟩).2.1 "chat" rfl (by decide) (by decide) (by decide),
    (C8_amended (fun _ => false) "t0" "s"
      ⟨some "audio_chunk", none, none, none, false⟩ ⟨[]⟩).2.2 "audio_chunk" rfl
      (by decide) rfl⟩

/-! ## REST delete theorem (C9) -/

/-- C9 (code bug): `delete_room` checks `room_id not in rooms` and
404s for an absent room, but for every *existing* room its first action
(webrtc.py:228) evaluates `socket_manager`, a name never defined or
imported anywhere in the module or repository (the server object is
`sio`), so Python raises `NameError` — the handler returns HTTP 500, no
member is notified or removed, and the room is not deleted.  The claimed
success path is unreachable; only the not-found half of the claim holds.
Evaluated here at a concrete state holding room `"r1"`. -/
theorem C9_delete_room_name_error :
    delete_room "r1" ⟨[("r1", [1])], [(1, "alice")], [("r1", [1])]⟩ =
      .nameError ∧
    delete_room "r2" ⟨[("r1", [1])], [(1, "alice")], [("r1", [1])]⟩ =
      .notFound := by
  decide

/-! ## Chat-broadcast theorems (C10) -/

/-- An emit whose `skip_sid` is the sid itself never reaches that sid. -/
theorem skip_self_not_recipient (rooms : List (String × List Nat)) (ev : String)
    (p : Payload) (r : String) (sid : Nat) :
    sid ∉ emitRecipients rooms ⟨ev, p, .toRoom r, some sid⟩ := by
  simp [emitRecipients]

theorem mem_ite_singleton {α : Type} {c : Prop} [Decidable c] {x e : α}
    (he : e ∈ (if c then [x] else ([] : List α))) : e = x := by
  split at he
  · simpa using he
  · simp at he

/-- Every emit produced by `join_room` is the `user-joined` notification
with `skip_sid = sid`. -/
theorem join_room_emits (sid : Nat) (r u : String) (st : SigState) (e : Emit)
    (he : e ∈ (join_room sid r u st).2) :
    e = ⟨"user-joined", .str u, .toRoom r, some sid⟩ := by
  simp only [join_room] at he
  exact mem_ite_singleton he

/-- Every emit produced by `leave_room` is the `user-left` notification
with `skip_sid = sid`. -/
theorem leave_room_emits (sid : Nat) (r : String) (st : SigState) (e : Emit)
    (he : e ∈ (leave_room sid r st).2) :
    e = ⟨"user-left", .str (pget st.participants sid "Unknown"),
      .toRoom r, some sid⟩ := by
  rcases hms : alistLookup st.rooms r with _ | ms
  · simp [leave_room, hms] at he
  · by_cases hsid : sid ∈ ms
    · by_cases hemp : listRemove ms sid = []
      · simp only [leave_room, hms, if_pos hsid, if_pos hemp] at he
        simpa using he
      · simp only [leave_room, hms, if_pos hsid, if_neg hemp] at he
        simpa using he
    · simp [leave_room, hms, hsid] at he

/-- C10: a chat `message` event is broadcast to the whole room with no
`skip_sid`, so every connection currently in the room — including the
sender itself — receives the `{user_id, message, timestamp}` envelope;
by contrast, the `user-joined` and `user-left` notifications emitted by
`join_room` and `leave_room` carry `skip_sid = sid` and never reach
their originator. -/
theorem C10_chat_includes_sender (sid : Nat) (msg room_id timestamp : String)
    (st : SigState) (hmem : sid ∈ sioMembers st room_id) :
    messageHandler sid msg room_id timestamp st =
      [⟨"message", .chat (pget st.participants sid "Unknown") msg timestamp,
        .toRoom room_id, none⟩] ∧
    (∀ e ∈ messageHandler sid msg room_id timestamp st,
      emitRecipients st.sioRooms e = sioMembers st room_id ∧
      sid ∈ emitRecipients st.sioRooms e) ∧
    (∀ (u : String) (st' : SigState) (e : Emit),
      e ∈ (join_room sid room_id u st').2 →
      sid ∉ emitRecipients st'.sioRooms e) ∧
    (∀ (st' : SigState) (e : Emit), e ∈ (leave_room sid room_id st').2 →
      sid ∉ emitRecipients st'.sioRooms e) := by
  refine ⟨rfl, ?_, ?_, ?_⟩
  · intro e he
    simp only [messageHandler, List.mem_singleton] at he
    subst he
    exact ⟨rfl, hmem⟩
  · intro u st' e he
    rw [join_room_emits sid room_id u st' e he]
    exact skip_self_not_recipient _ _ _ _ _
  · intro st' e he
    rw [leave_room_emits sid room_id st' e he]
    exact skip_self_not_recipient _ _ _ _ _

/-- C10 witness: `alice` (sid 1) chats in room `"r"` with members
`[1, 2]`; both members, sender included, receive the envelope. -/
theorem C10_witness :
    (1 : Nat) ∈ sioMembers
      ⟨[("r", [1, 2])], [(1, "alice"), (2, "bob")], [("r", [1, 2])]⟩ "r" ∧
    (messageHandler 1 "hi" "r" "t0"
        ⟨[("r", [1, 2])], [(1, "alice"), (2, "bob")], [("r", [1, 2])]⟩ =
      [⟨"message", .chat (pget ([(1, "alice"), (2, "bob")] : List (Nat × String))
          1 "Unknown") "hi" "t0", .toRoom "r", none⟩] ∧
    (∀ e ∈ messageHandler 1 "hi" "r" "t0"
        ⟨[("r", [1, 2])], [(1, "alice"), (2, "bob")], [("r", [1, 2])]⟩,
      emitRecipients [("r", [1, 2])] e =
        sioMembers ⟨[("r", [1, 2])], [(1, "alice"), (2, "bob")], [("r", [1, 2])]⟩
          "r" ∧
      (1 : Nat) ∈ emitRecipients [("r", [1, 2])] e) ∧
    (∀ (u : String) (st' : SigState) (e : Emit),
      e ∈ (join_room 1 "r" u st').2 → (1 : Nat) ∉ emitRecipients st'.sioRooms e) ∧
    (∀ (st' : SigState) (e : Emit), e ∈ (leave_room 1 "r" st').2 →
      (1 : Nat) ∉ emitRecipients st'.sioRooms e)) :=
  ⟨by decide, C10_chat_includes_sender 1 "hi" "r" "t0"
    ⟨[("r", [1, 2])], [(1, "alice"), (2, "bob")], [("r", [1, 2])]⟩ (by decide)⟩

end Hexagon
